import Mathlib

/-!
# ServicesManager (SalonServiceManager .jsx)

A shallow embedding of the React component `ServicesManager`: its `useState`
cells become the fields of `State`, every event handler becomes a function on
`State`, and the HTTP calls made through axios are recorded as a list of
`Request`s, their outcome being an argument of the handler.

Conventions of the embedding
* An element of `formData.images` is either a string (a remote URL) or a
  `File` object; `typeof image === "string"` is `Image.isString`.
* A form field holds whatever JavaScript value was stored last: the strings
  typed by the user, the booleans of a checkbox, or the numbers of a service
  record (`Value`).
* A `Service` is the JSON record of the data model: string identifier,
  numeric price and duration, optional discount, optional image list, and a
  tags field that is absent, a string, or a list of strings.
* `FormData.append` order is kept: a payload is the list of appended parts.
  `JSON.stringify` of a list of strings is kept as the list itself.
* An `async` handler is run to completion in one step, the response of each
  awaited request being given as an argument.
-/

namespace ServicesManager

/-! ## Data model -/

/-- A browser `File` object picked in the file input. -/
structure File where
  name : String
  deriving DecidableEq, Repr

/-- An element of `formData.images`. -/
inductive Image where
  /-- a JavaScript string: the URL of an image stored by the backend -/
  | url (u : String)
  /-- a `File` object: a local file not uploaded yet -/
  | file (f : File)
  deriving DecidableEq, Repr

/-- The `File` behind an image entry, if it is one. -/
def Image.file? : Image → Option File
  | .file f => some f
  | .url _ => none

/-- Encodes `typeof image === "string"`. -/
def Image.isString : Image → Bool
  | .url _ => true
  | .file _ => false

/-- The scalar JavaScript values a form field can hold. -/
inductive Value where
  | bool (b : Bool)
  | num (q : ℚ)
  | str (s : String)
  deriving DecidableEq

/-- The `tags` field of a service record as the backend may send it. -/
inductive Tags where
  /-- the field is missing (`undefined`) or `null` -/
  | absent
  /-- a single comma-joined string -/
  | joined (s : String)
  /-- an array of strings -/
  | list (l : List String)
  deriving DecidableEq

/-- A service record returned by `GET /services`. -/
structure Service where
  _id : String
  name : String
  category : String
  price : ℚ
  duration : ℚ
  description : String
  images : Option (List Image)
  popular : Option Bool
  discount : Option ℚ
  tags : Tags
  deriving DecidableEq

/-- The `formData` state object (lines 8-18); field order is key order. -/
structure FormData where
  name : Value
  category : Value
  price : Value
  duration : Value
  description : Value
  images : List Image
  popular : Value
  discount : Value
  tags : Value
  deriving DecidableEq

/-- The object literal of lines 8-18 and 72-82. -/
def emptyForm : FormData :=
  { name := .str "", category := .str "", price := .str "", duration := .str "",
    description := .str "", images := [], popular := .bool false,
    discount := .str "", tags := .str "" }

/-- The eight `useState` cells of the component (lines 5-22). -/
structure State where
  services : List Service
  loading : Bool
  error : Option String
  formData : FormData
  viewingServices : Bool
  isEditing : Bool
  currentServiceId : Option String
  tempImages : List String
  deriving DecidableEq

/-- The initial values passed to `useState`. -/
def initialState : State :=
  { services := [], loading := false, error := none, formData := emptyForm,
    viewingServices := true, isEditing := false, currentServiceId := none,
    tempImages := [] }

/-! ## HTTP -/

/-- One part appended to the multipart `FormData`. -/
inductive Part where
  /-- a scalar form field (sent as its string conversion) -/
  | text (v : Value)
  /-- a binary file part -/
  | file (f : File)
  /-- a list of strings sent through `JSON.stringify` -/
  | json (l : List String)
  deriving DecidableEq

/-- A multipart body: the `(key, part)` pairs in `append` order. -/
abbrev Payload := List (String × Part)

/-- The four axios calls of the component. The id of a PATCH is the
`currentServiceId` cell interpolated in the URL, which may be `null`. -/
inductive Request where
  | get
  | post (body : Payload)
  | patch (id : Option String) (body : Payload)
  | delete (id : String)
  deriving DecidableEq

/-! ## fetchServices (lines 30-40) -/

/-- Runs `fetchServices` to completion; `response` is `none` when `axios.get`
rejects, `some data` otherwise. -/
def fetchServices (response : Option (List Service)) (s : State) : State × List Request :=
  let s1 := { s with loading := true }
  let s2 :=
    match response with
    | some data => { s1 with services := data }
    | none => { s1 with error := some "Error fetching services" }
  ({ s2 with loading := false }, [Request.get])

/-! ## Form handlers (lines 42-86) -/

/-- The `name` attributes of the inputs wired to `handleChange`. -/
inductive FieldName where
  | name | category | price | duration | discount | tags | description | popular
  deriving DecidableEq

/-- What `handleChange` reads from `e.target`. -/
structure ChangeEvent where
  name : FieldName
  value : String
  type : String
  checked : Bool
  deriving DecidableEq

/-- Computes the object spread `...formData, [name]: v`. -/
def FormData.set (fd : FormData) (key : FieldName) (v : Value) : FormData :=
  match key with
  | .name => { fd with name := v }
  | .category => { fd with category := v }
  | .price => { fd with price := v }
  | .duration => { fd with duration := v }
  | .discount => { fd with discount := v }
  | .tags => { fd with tags := v }
  | .description => { fd with description := v }
  | .popular => { fd with popular := v }

/-- Lines 42-48. -/
def handleChange (e : ChangeEvent) (s : State) : State :=
  { s with formData :=
      s.formData.set e.name (if e.type = "checkbox" then .bool e.checked else .str e.value) }

/-- Lines 50-55: the picked files are appended to the image list. -/
def handleImageChange (files : List File) (s : State) : State :=
  { s with formData :=
      { s.formData with images := s.formData.images ++ files.map Image.file } }

/-- Lines 57-69. `formData.images[index]` is `undefined` past the end, whose
`typeof` is not `"string"`; `splice(index, 1)` past the end removes nothing. -/
def handleRemoveImage (index : Nat) (s : State) : State :=
  let s1 :=
    match s.isEditing, s.formData.images[index]? with
    | true, some (.url u) => { s with tempImages := s.tempImages ++ [u] }
    | _, _ => s
  let updatedImages := s.formData.images.eraseIdx index
  { s1 with formData := { s.formData with images := updatedImages } }

/-- Lines 71-86. -/
def resetForm (s : State) : State :=
  { s with formData := emptyForm, isEditing := false, currentServiceId := none,
           tempImages := [] }

/-! ## handleSubmit (lines 88-140) -/

/-- The keys of `formData` other than `"images"`, in `Object.keys` order, with
their values (lines 95-99). -/
def scalarParts (fd : FormData) : Payload :=
  [("name", .text fd.name), ("category", .text fd.category), ("price", .text fd.price),
   ("duration", .text fd.duration), ("description", .text fd.description),
   ("popular", .text fd.popular), ("discount", .text fd.discount), ("tags", .text fd.tags)]

/-- How `formDataToSend.append("images", image)` sends a value: a `File` as a
binary part, anything else as its string conversion. -/
def Part.ofImage : Image → Part
  | .file f => .file f
  | .url u => .text (.str u)

/-- Lines 102-106: the `forEach` loop appending the elements that are not strings. -/
def fileParts : List Image → Payload
  | [] => []
  | image :: rest =>
      if image.isString = false then ("images", Part.ofImage image) :: fileParts rest
      else fileParts rest

/-- Lines 109-111: `formData.images.filter(typeof img === "string").map(url => url)`. -/
def existingImageUrls : List Image → List String
  | [] => []
  | .url u :: rest => u :: existingImageUrls rest
  | .file _ :: rest => existingImageUrls rest

/-- Lines 92-120: the body built in `formDataToSend`. -/
def formDataToSend (s : State) : Payload :=
  scalarParts s.formData
    ++ fileParts s.formData.images
    ++ [("existingImages", .json (existingImageUrls s.formData.images))]
    ++ (if s.tempImages.length > 0 then [("imagesToRemove", .json s.tempImages)] else [])

/-- Lines 122-130: the request awaited by `handleSubmit`. -/
def submitRequest (s : State) : Request :=
  if s.isEditing then .patch s.currentServiceId (formDataToSend s)
  else .post (formDataToSend s)

/-- Lines 88-140 run to completion. `ok` tells whether the awaited POST/PATCH
resolved; `fetched` is the response of the `fetchServices()` call started on
success (not awaited: it completes after the `finally` block). -/
def handleSubmit (ok : Bool) (fetched : Option (List Service)) (s : State) :
    State × List Request :=
  let s1 := { s with loading := true }
  let req := submitRequest s
  if ok then
    -- fetchServices() runs up to its first await: setLoading(true), axios.get
    let s2 := { s1 with loading := true }
    let s3 := resetForm s2
    let s4 := { s3 with viewingServices := true }
    let s5 := { s4 with loading := false }
    -- the pending fetch completes
    let r := fetchServices fetched s5
    (r.1, req :: r.2)
  else
    let message := "Error " ++ (if s.isEditing then "updating" else "adding") ++ " service"
    let s2 := { s1 with error := some message }
    ({ s2 with loading := false }, [req])

/-- The body of a request, if it carries one. -/
def Request.body : Request → Option Payload
  | .post b => some b
  | .patch _ b => some b
  | _ => none

/-- The multipart body of the first request issued by `handleSubmit`. -/
def submittedBody (ok : Bool) (fetched : Option (List Service)) (s : State) : Payload :=
  (((handleSubmit ok fetched s).2.head?).bind Request.body).getD []

/-- Mirrors `FormData.getAll(key)`: every part appended under `key`, in order. -/
def Payload.getAll (key : String) (p : Payload) : List Part :=
  (p.filter (fun kv => kv.1 = key)).map Prod.snd

/-- Every binary part of a payload, whatever its key, in order. -/
def Payload.files : Payload → List File
  | [] => []
  | (_, .file f) :: rest => f :: Payload.files rest
  | (_, .text _) :: rest => Payload.files rest
  | (_, .json _) :: rest => Payload.files rest

/-- The existing-images list as the specification words it: the image list
filtered to its remote-URL entries, minus any URL in the removal list. -/
def specExistingImages (s : State) : List Image :=
  (s.formData.images.filter Image.isString).filter
    (fun img => match img with
      | .url u => decide (u ∉ s.tempImages)
      | .file _ => true)

/-! ## handleDelete, handleEdit, handleCancel (lines 142-176) -/

/-- Lines 142-154 run to completion. `confirmed` is the answer of
`window.confirm`, `ok` whether `axios.delete` resolved, `fetched` the response
of the `fetchServices()` started on success. -/
def handleDelete (id : String) (confirmed ok : Bool) (fetched : Option (List Service))
    (s : State) : State × List Request :=
  if confirmed then
    let s1 := { s with loading := true }
    if ok then
      let s2 := { s1 with loading := true }
      let s3 := { s2 with loading := false }
      let r := fetchServices fetched s3
      (r.1, Request.delete id :: r.2)
    else
      let s2 := { s1 with error := some "Error deleting service" }
      ({ s2 with loading := false }, [Request.delete id])
  else (s, [])

/-- Evaluates `service.tags ? service.tags.join(", ") : ""`: a non-empty string is
truthy and has no `join` method, so the expression throws a `TypeError`. -/
def editTags : Tags → Except String String
  | .absent => .ok ""
  | .list l => .ok (", ".intercalate l)
  | .joined t =>
      if t = "" then .ok "" else .error "TypeError: service.tags.join is not a function"

/-- Evaluates `service.discount || ""`: `undefined`, `null` and `0` are falsy. -/
def editDiscount : Option ℚ → Value
  | none => .str ""
  | some d => if d = 0 then .str "" else .num d

/-- Evaluates `service.popular || false`. -/
def editPopular : Option Bool → Value
  | none => .bool false
  | some b => .bool b

/-- Lines 156-171. The object literal is evaluated before any setter is called,
so an exception leaves every state cell as it was. -/
def handleEdit (service : Service) (s : State) : Except String State := do
  let tags ← editTags service.tags
  let fd : FormData :=
    { name := .str service.name, category := .str service.category,
      price := .num service.price, duration := .num service.duration,
      description := .str service.description,
      images := service.images.getD [],
      popular := editPopular service.popular,
      discount := editDiscount service.discount,
      tags := .str tags }
  pure { s with formData := fd, currentServiceId := some service._id,
                isEditing := true, viewingServices := false }

/-- Lines 173-176. -/
def handleCancel (s : State) : State :=
  { resetForm s with viewingServices := true }

/-! ## Price display in the list view (lines 429-441) -/

/-- The events of the component, with the responses of the requests they await. -/
inductive Action where
  /-- the `useEffect` of lines 26-28 -/
  | mount (fetched : Option (List Service))
  /-- the "Create New Service" button (lines 185-193) -/
  | createNew
  /-- the "View Services" button (lines 194-202) -/
  | viewServices
  /-- the "Edit" button of a service card -/
  | edit (service : Service)
  /-- the "Delete" button of a service card -/
  | delete (id : String) (confirmed ok : Bool) (fetched : Option (List Service))
  | change (e : ChangeEvent)
  | imageChange (files : List File)
  | removeImage (index : Nat)
  | submit (ok : Bool) (fetched : Option (List Service))
  | cancel

/-- Which events the rendered page offers: the two top buttons always, the
service cards only in the list view (line 212), the form only otherwise. -/
def Action.offered (s : State) : Action → Bool
  | .mount _ => true
  | .createNew => true
  | .viewServices => true
  | .edit service => s.viewingServices && decide (service ∈ s.services)
  | .delete id _ _ _ => s.viewingServices && decide (id ∈ s.services.map Service._id)
  | .change _ => !s.viewingServices
  | .imageChange _ => !s.viewingServices
  | .removeImage index => !s.viewingServices && decide (index < s.formData.images.length)
  | .submit _ _ => !s.viewingServices
  | .cancel => !s.viewingServices

/-- The component state together with two history variables. -/
structure Session where
  state : State
  /-- the argument of the most recent `handleEdit` call -/
  lastEdited : Option Service
  /-- the entries deleted by `handleRemoveImage` since that call -/
  removed : List Image

/-- The session right after the first render. -/
def Session.initial : Session :=
  { state := initialState, lastEdited := none, removed := [] }

/-- One event. -/
def step (a : Action) (σ : Session) : Session :=
  match a with
  | .mount fetched => { σ with state := (fetchServices fetched σ.state).1 }
  | .createNew => { σ with state := { resetForm σ.state with viewingServices := false } }
  | .viewServices => { σ with state := { resetForm σ.state with viewingServices := true } }
  | .edit service =>
      { state := match handleEdit service σ.state with
                 | .ok s => s
                 | .error _ => σ.state
        lastEdited := some service
        removed := [] }
  | .delete id confirmed ok fetched =>
      { σ with state := (handleDelete id confirmed ok fetched σ.state).1 }
  | .change e => { σ with state := handleChange e σ.state }
  | .imageChange files => { σ with state := handleImageChange files σ.state }
  | .removeImage index =>
      { σ with state := handleRemoveImage index σ.state
               removed := σ.removed ++ (σ.state.formData.images[index]?).toList }
  | .submit ok fetched => { σ with state := (handleSubmit ok fetched σ.state).1 }
  | .cancel => { σ with state := handleCancel σ.state }

/-- Runs a sequence of events from a session. -/
def run (actions : List Action) (σ : Session) : Session :=
  actions.foldl (fun acc a => step a acc) σ

/-- Whether each event of a sequence is offered in the session it is fired in. -/
def offeredAll : List Action → Session → Bool
  | [], _ => true
  | a :: rest, σ => a.offered σ.state && offeredAll rest (step a σ)

/-- The sessions the user can reach from the first render. -/
inductive Reachable : Session → Prop where
  | initial : Reachable Session.initial
  | step {σ : Session} (a : Action) :
      Reachable σ → a.offered σ.state = true → Reachable (step a σ)

/-! ## Properties named by the specification, and sample data -/

/-- The state a finished or cancelled form must be in: the draft has its empty
initial shape, the removal list is empty, edit mode is off, no identifier is
set and the list view is shown. -/
def IsReset (s : State) : Prop :=
  s.formData.name = .str "" ∧ s.formData.category = .str "" ∧ s.formData.price = .str "" ∧
  s.formData.duration = .str "" ∧ s.formData.description = .str "" ∧
  s.formData.discount = .str "" ∧ s.formData.tags = .str "" ∧
  s.formData.images = [] ∧ s.formData.popular = .bool false ∧
  s.tempImages = [] ∧ s.isEditing = false ∧ s.currentServiceId = none ∧
  s.viewingServices = true

instance (s : State) : Decidable (IsReset s) := by
  unfold IsReset
  infer_instance

/-- A local file used in the examples. -/
def fileA : File := { name := "a.png" }

/-- A service with one stored image. -/
def sampleService : Service :=
  { _id := "s1", name := "Cut", category := "hair", price := 100, duration := 30,
    description := "A cut", images := some [.url "http://a/1.png"], popular := some true,
    discount := some 20, tags := .list ["quick", "premium"] }

/-- The scenario of the specification: the draft holds one stored image and one
local file, and the user removes the entry at index 0 while editing. -/
def scenarioSession : Session :=
  run [.mount (some [sampleService]), .edit sampleService, .imageChange [fileA], .removeImage 0]
    Session.initial

/-- A service whose image list names the same URL twice. -/
def duplicateService : Service :=
  { sampleService with images := some [.url "http://a/1.png", .url "http://a/1.png"] }

/-- Editing `duplicateService` and removing its first image. -/
def duplicateSession : Session :=
  run [.mount (some [duplicateService]), .edit duplicateService, .removeImage 0] Session.initial

/-- The sample service with a discount of zero percent. -/
def zeroDiscountService : Service :=
  { sampleService with discount := some 0 }

/-- The draft `handleEdit` leaves, if it returns. -/
def draftAfterEdit (service : Service) (s : State) : Option FormData :=
  match handleEdit service s with
  | .ok s2 => some s2.formData
  | .error _ => none

/-- The draft discount as the specification words it: the service's value, and
the empty string when the service has none. -/
def specDraftDiscount (service : Service) : Value :=
  match service.discount with
  | some d => .num d
  | none => .str ""

/-- The invariant of the reachable sessions: the list view is never in edit mode;
outside edit mode there is no removal list and no identifier; in edit mode the
identifier is the one of the service last edited and every URL of the draft
comes from that service; every URL of the removal list comes from that service
and was deleted from the draft by `handleRemoveImage` since. -/
def Inv (σ : Session) : Prop :=
  (σ.state.viewingServices = true → σ.state.isEditing = false) ∧
  (σ.state.isEditing = false →
    σ.state.tempImages = [] ∧ σ.state.currentServiceId = none) ∧
  (σ.state.isEditing = true →
    ∃ service, σ.lastEdited = some service ∧
      σ.state.currentServiceId = some service._id ∧
      ∀ u, Image.url u ∈ σ.state.formData.images → Image.url u ∈ service.images.getD []) ∧
  (∀ u ∈ σ.state.tempImages,
    ∃ service, σ.lastEdited = some service ∧
      Image.url u ∈ service.images.getD [] ∧ Image.url u ∈ σ.removed)

/-- A second invariant: while a service whose image list has no repeated entry
is being edited, the URLs left in the draft followed by the removal list have
no repeated entry either. -/
def DistinctInv (σ : Session) : Prop :=
  σ.state.isEditing = true →
    ∀ service, σ.lastEdited = some service → (service.images.getD []).Nodup →
      (existingImageUrls σ.state.formData.images ++ σ.state.tempImages).Nodup

/-! ## Auxiliary lemmas -/

theorem getAll_append (key : String) (p q : Payload) :
    Payload.getAll key (p ++ q) = Payload.getAll key p ++ Payload.getAll key q := by
  simp [Payload.getAll]

theorem files_append (p q : Payload) :
    Payload.files (p ++ q) = Payload.files p ++ Payload.files q := by
  induction p with
  | nil => rfl
  | cons kv rest ih =>
      obtain ⟨k, part⟩ := kv
      cases part <;> simp [Payload.files, ih]

theorem getAll_images_fileParts (images : List Image) :
    Payload.getAll "images" (fileParts images)
      = (images.filter (fun img => !img.isString)).map Part.ofImage := by
  induction images with
  | nil => rfl
  | cons img rest ih =>
      simp only [Payload.getAll] at ih
      cases img <;> simp [fileParts, Image.isString, Payload.getAll, ih]

theorem files_fileParts (images : List Image) :
    Payload.files (fileParts images) = images.filterMap Image.file? := by
  induction images with
  | nil => rfl
  | cons img rest ih =>
      cases img <;> simp [fileParts, Image.isString, Image.file?, Part.ofImage, Payload.files, ih]

theorem existingImageUrls_spec (images : List Image) :
    (existingImageUrls images).map Image.url = images.filter Image.isString := by
  induction images with
  | nil => rfl
  | cons img rest ih =>
      cases img <;> simp [existingImageUrls, Image.isString, ih]

theorem head_handleSubmit (ok : Bool) (fetched : Option (List Service)) (s : State) :
    (handleSubmit ok fetched s).2.head? = some (submitRequest s) := by
  cases ok <;> simp [handleSubmit]

theorem submittedBody_eq (ok : Bool) (fetched : Option (List Service)) (s : State) :
    submittedBody ok fetched s = formDataToSend s := by
  unfold submittedBody
  rw [head_handleSubmit]
  unfold submitRequest
  split <;> rfl

theorem getAll_fileParts_of_ne (key : String) (hk : key ≠ "images") (images : List Image) :
    Payload.getAll key (fileParts images) = [] := by
  induction images with
  | nil => rfl
  | cons img rest ih =>
      simp only [Payload.getAll] at ih
      cases img <;> simp [fileParts, Image.isString, Payload.getAll, ih, Ne.symm hk]

theorem reachable_run (actions : List Action) :
    ∀ σ : Session, Reachable σ → offeredAll actions σ = true → Reachable (run actions σ) := by
  induction actions with
  | nil => intro σ h _; exact h
  | cons a rest ih =>
      intro σ h hall
      simp only [offeredAll, Bool.and_eq_true] at hall
      exact ih (step a σ) (Reachable.step a h hall.1) hall.2

theorem images_set (fd : FormData) (key : FieldName) (v : Value) :
    (fd.set key v).images = fd.images := by
  cases key <;> rfl

theorem inv_initial : Inv Session.initial := by
  simp [Inv, Session.initial, initialState]

theorem inv_of_reset (σ : Session) (view : Bool) (s : State)
    (h : s = { resetForm σ.state with viewingServices := view }) :
    Inv { σ with state := s } := by
  subst h
  simp [Inv, resetForm]

theorem inv_of_frame (σ : Session) (s : State) (hinv : Inv σ)
    (hv : s.viewingServices = σ.state.viewingServices)
    (he : s.isEditing = σ.state.isEditing)
    (ht : s.tempImages = σ.state.tempImages)
    (hc : s.currentServiceId = σ.state.currentServiceId)
    (hi : ∀ u, Image.url u ∈ s.formData.images → Image.url u ∈ σ.state.formData.images) :
    Inv { σ with state := s } := by
  obtain ⟨h1, h2, h3, h4⟩ := hinv
  refine ⟨?_, ?_, ?_, ?_⟩
  · simpa [hv, he] using h1
  · simpa [he, ht, hc] using h2
  · intro hedit
    obtain ⟨service, hl, hid, himg⟩ := h3 (by simpa [he] using hedit)
    exact ⟨service, hl, by simpa [hc] using hid, fun u hu => himg u (hi u hu)⟩
  · simpa [ht] using h4

theorem inv_step (a : Action) (σ : Session) (hinv : Inv σ)
    (hoff : a.offered σ.state = true) : Inv (step a σ) := by
  cases a with
  | mount fetched =>
      apply inv_of_frame σ _ hinv <;> cases fetched <;> simp [fetchServices]
  | createNew => exact inv_of_reset σ false _ rfl
  | viewServices => exact inv_of_reset σ true _ rfl
  | cancel => exact inv_of_reset σ true _ rfl
  | delete id confirmed ok fetched =>
      apply inv_of_frame σ _ hinv <;> cases confirmed <;> cases ok <;> cases fetched <;>
        simp [handleDelete, fetchServices]
  | change e =>
      apply inv_of_frame σ _ hinv <;> simp [handleChange, images_set]
  | imageChange files =>
      apply inv_of_frame σ _ hinv <;> simp [handleImageChange]
  | submit ok fetched =>
      cases ok
      · apply inv_of_frame σ _ hinv <;> simp [handleSubmit]
      · have h : (handleSubmit true fetched σ.state).1
            = { resetForm (fetchServices fetched σ.state).1 with viewingServices := true } := by
          cases fetched <;> simp [handleSubmit, fetchServices, resetForm]
        simp only [step, h]
        cases fetched <;> simp [Inv, resetForm, fetchServices]
  | edit service =>
      simp only [Action.offered, Bool.and_eq_true] at hoff
      obtain ⟨h1, h2, _, _⟩ := hinv
      have hne := h1 hoff.1
      obtain ⟨htemp, hcur⟩ := h2 hne
      cases hres : handleEdit service σ.state with
      | error e =>
          simp only [step, hres]
          simp [Inv, hne, htemp, hcur]
      | ok s2 =>
          simp only [step, hres]
          have hs2 : s2.isEditing = true ∧ s2.viewingServices = false ∧
              s2.currentServiceId = some service._id ∧ s2.tempImages = [] ∧
              s2.formData.images = service.images.getD [] := by
            unfold handleEdit at hres
            cases htags : editTags service.tags with
            | error e => simp [htags, bind, Except.bind] at hres
            | ok tags =>
                simp only [htags, bind, Except.bind, pure, Except.pure, Except.ok.injEq] at hres
                subst hres
                simp [htemp]
          obtain ⟨e1, e2, e3, e4, e5⟩ := hs2
          simp [Inv, e1, e2, e3, e4, e5]
  | removeImage index =>
      simp only [Action.offered, Bool.and_eq_true, decide_eq_true_eq] at hoff
      obtain ⟨h1, h2, h3, h4⟩ := hinv
      have himages : (handleRemoveImage index σ.state).formData.images
          = σ.state.formData.images.eraseIdx index := by
        unfold handleRemoveImage; split <;> rfl
      have hview : (handleRemoveImage index σ.state).viewingServices
          = σ.state.viewingServices := by
        unfold handleRemoveImage; split <;> rfl
      have hedit : (handleRemoveImage index σ.state).isEditing = σ.state.isEditing := by
        unfold handleRemoveImage; split <;> rfl
      have hcur : (handleRemoveImage index σ.state).currentServiceId
          = σ.state.currentServiceId := by
        unfold handleRemoveImage; split <;> rfl
      have htemp : ∀ u ∈ (handleRemoveImage index σ.state).tempImages,
          u ∈ σ.state.tempImages ∨
            (σ.state.isEditing = true ∧ σ.state.formData.images[index]? = some (.url u)) := by
        intro u hu
        unfold handleRemoveImage at hu
        split at hu
        · rename_i u2 he hi
          simp only [List.mem_append, List.mem_singleton] at hu
          rcases hu with hu | hu
          · exact Or.inl hu
          · subst hu; exact Or.inr ⟨he, hi⟩
        · exact Or.inl hu
      refine ⟨?_, ?_, ?_, ?_⟩
      · simpa [step, hview, hedit] using h1
      · intro hne
        simp only [step, hedit] at hne
        obtain ⟨ht, hc⟩ := h2 hne
        refine ⟨?_, by simpa [step, hcur] using hc⟩
        simp [step, handleRemoveImage, hne, ht]
      · intro he
        simp only [step, hedit] at he
        obtain ⟨service, hl, hid, himg⟩ := h3 he
        refine ⟨service, hl, by simpa [step, hcur] using hid, ?_⟩
        intro u hu
        simp only [step, himages] at hu
        exact himg u (List.mem_of_mem_eraseIdx hu)
      · intro u hu
        simp only [step] at hu
        rcases htemp u hu with hold | ⟨he, hi⟩
        · obtain ⟨service, hl, hin, hrem⟩ := h4 u hold
          exact ⟨service, hl, hin, by simp [step, hrem]⟩
        · obtain ⟨service, hl, _, himg⟩ := h3 he
          refine ⟨service, hl, himg u (List.getElem?_mem hi), ?_⟩
          simp [step, hi]

theorem inv_of_reachable (σ : Session) (h : Reachable σ) : Inv σ := by
  induction h with
  | initial => exact inv_initial
  | step a _ hoff ih => exact inv_step a _ ih hoff

theorem existingImageUrls_append_files (images : List Image) (files : List File) :
    existingImageUrls (images ++ files.map Image.file) = existingImageUrls images := by
  induction images with
  | nil =>
      induction files with
      | nil => rfl
      | cons f rest ih => simpa [existingImageUrls] using ih
  | cons img rest ih => cases img <;> simp [existingImageUrls, ih]

theorem existingImageUrls_nodup (images : List Image) (h : images.Nodup) :
    (existingImageUrls images).Nodup := by
  have hmap : ((existingImageUrls images).map Image.url).Nodup := by
    rw [existingImageUrls_spec]
    exact h.filter _
  exact List.Nodup.of_map _ hmap

theorem existingImageUrls_eraseIdx_url (u : String) :
    ∀ (images : List Image) (index : Nat), images[index]? = some (.url u) →
      List.Perm (u :: existingImageUrls (images.eraseIdx index)) (existingImageUrls images) := by
  intro images
  induction images with
  | nil => intro index h; simp at h
  | cons img rest ih =>
      intro index h
      cases index with
      | zero =>
          simp only [List.getElem?_cons_zero, Option.some.injEq] at h
          subst h
          simp [existingImageUrls]
      | succ k =>
          simp only [List.getElem?_cons_succ] at h
          cases img with
          | file f => simpa [existingImageUrls] using ih k h
          | url v =>
              simp only [List.eraseIdx_cons_succ, existingImageUrls]
              exact (List.Perm.swap v u _).trans ((ih k h).cons v)

theorem existingImageUrls_eraseIdx_file (f : File) :
    ∀ (images : List Image) (index : Nat), images[index]? = some (.file f) →
      existingImageUrls (images.eraseIdx index) = existingImageUrls images := by
  intro images
  induction images with
  | nil => intro index h; simp at h
  | cons img rest ih =>
      intro index h
      cases index with
      | zero =>
          simp only [List.getElem?_cons_zero, Option.some.injEq] at h
          subst h
          simp [existingImageUrls]
      | succ k =>
          simp only [List.getElem?_cons_succ] at h
          cases img <;> simp [existingImageUrls, ih k h]

theorem distinct_of_frame (σ : Session) (s : State) (hd : DistinctInv σ)
    (he : s.isEditing = σ.state.isEditing)
    (ht : s.tempImages = σ.state.tempImages)
    (hi : existingImageUrls s.formData.images = existingImageUrls σ.state.formData.images) :
    DistinctInv { σ with state := s } := by
  intro hedit service hl hnd
  simpa [hi, ht] using hd (by simpa [he] using hedit) service hl hnd

theorem distinct_step (a : Action) (σ : Session) (hinv : Inv σ) (hd : DistinctInv σ)
    (hoff : a.offered σ.state = true) : DistinctInv (step a σ) := by
  cases a with
  | mount fetched =>
      apply distinct_of_frame σ _ hd <;> cases fetched <;> simp [fetchServices]
  | createNew => intro hedit; simp [step, resetForm] at hedit
  | viewServices => intro hedit; simp [step, resetForm] at hedit
  | cancel => intro hedit; simp [step, handleCancel, resetForm] at hedit
  | delete id confirmed ok fetched =>
      apply distinct_of_frame σ _ hd <;> cases confirmed <;> cases ok <;> cases fetched <;>
        simp [handleDelete, fetchServices]
  | change e =>
      apply distinct_of_frame σ _ hd <;> simp [handleChange, images_set]
  | imageChange files =>
      apply distinct_of_frame σ _ hd <;>
        simp [handleImageChange, existingImageUrls_append_files]
  | submit ok fetched =>
      cases ok
      · apply distinct_of_frame σ _ hd <;> simp [handleSubmit]
      · intro hedit
        cases fetched <;> simp [step, handleSubmit, fetchServices, resetForm] at hedit
  | edit service =>
      simp only [Action.offered, Bool.and_eq_true] at hoff
      obtain ⟨h1, h2, _, _⟩ := hinv
      have hne := h1 hoff.1
      obtain ⟨htemp, _⟩ := h2 hne
      cases hres : handleEdit service σ.state with
      | error e =>
          intro hedit
          simp [step, hres, hne] at hedit
      | ok s2 =>
          have hs2 : s2.tempImages = [] ∧
              s2.formData.images = service.images.getD [] := by
            unfold handleEdit at hres
            cases htags : editTags service.tags with
            | error e => simp [htags, bind, Except.bind] at hres
            | ok tags =>
                simp only [htags, bind, Except.bind, pure, Except.pure, Except.ok.injEq] at hres
                subst hres
                simp [htemp]
          intro _ service2 hl hnd
          simp only [step, Option.some.injEq] at hl
          subst hl
          simp only [step, hres, hs2.1, hs2.2, List.append_nil]
          exact existingImageUrls_nodup _ hnd
  | removeImage index =>
      simp only [Action.offered, Bool.and_eq_true, decide_eq_true_eq] at hoff
      intro hedit service hl hnd
      have he : σ.state.isEditing = true := by
        have : (handleRemoveImage index σ.state).isEditing = σ.state.isEditing := by
          unfold handleRemoveImage; split <;> rfl
        simpa [step, this] using hedit
      have hold := hd he service (by simpa [step] using hl) hnd
      cases hentry : σ.state.formData.images[index]? with
      | none =>
          have := List.getElem?_eq_none_iff.mp hentry
          omega
      | some img =>
          cases img with
          | file f =>
              have hurls := existingImageUrls_eraseIdx_file f _ _ hentry
              simpa [step, handleRemoveImage, he, hentry, hurls] using hold
          | url u =>
              have hperm := existingImageUrls_eraseIdx_url u _ _ hentry
              have hgoal : List.Perm
                  (existingImageUrls (σ.state.formData.images.eraseIdx index)
                    ++ (σ.state.tempImages ++ [u]))
                  (existingImageUrls σ.state.formData.images ++ σ.state.tempImages) := by
                refine List.Perm.trans ?_ (hperm.append_right _)
                simp only [← List.append_assoc]
                exact List.perm_append_singleton _ _ |>.trans (by simp)
              have hnew := hgoal.nodup_iff.mpr hold
              simpa [step, handleRemoveImage, he, hentry] using hnew

theorem distinct_of_reachable (σ : Session) (h : Reachable σ) : DistinctInv σ := by
  induction h with
  | initial => intro hedit; simp [Session.initial, initialState] at hedit
  | step a hr hoff ih => exact distinct_step a _ (inv_of_reachable _ hr) ih hoff

/-- In a reachable session whose last edited service has no repeated image entry,
no URL left in the draft is in the removal list. -/
theorem remaining_not_removed (σ : Session) (h : Reachable σ)
    (hnd : ∀ service, σ.lastEdited = some service → (service.images.getD []).Nodup) :
    ∀ u ∈ existingImageUrls σ.state.formData.images, u ∉ σ.state.tempImages := by
  intro u hu htemp
  obtain ⟨_, h2, h3, _⟩ := inv_of_reachable σ h
  cases he : σ.state.isEditing with
  | false => simp [(h2 he).1] at htemp
  | true =>
      obtain ⟨service, hl, _, _⟩ := h3 he
      have hnodup := distinct_of_reachable σ h he service hl (hnd service hl)
      exact (List.nodup_append.mp hnodup).2.2 hu htemp

/-! ## Submission payload -/

/-- Claim C1, as the code has it: the `existingImages` field is sent exactly once and
holds the string entries of the draft image list, in order; the removal list is
not subtracted from it but sent on its own as `imagesToRemove` when non-empty.
The field agrees with the list worded by the specification whenever none of the
URLs left in the draft is in the removal list, as in every reachable session
whose edited service has no repeated image entry. -/
theorem existingImages_emitted (ok : Bool) (fetched : Option (List Service)) (s : State) :
    Payload.getAll "existingImages" (submittedBody ok fetched s)
        = [.json (existingImageUrls s.formData.images)] ∧
    (existingImageUrls s.formData.images).map Image.url
        = s.formData.images.filter Image.isString ∧
    ((∀ u ∈ existingImageUrls s.formData.images, u ∉ s.tempImages) →
      (existingImageUrls s.formData.images).map Image.url = specExistingImages s) ∧
    Payload.getAll "imagesToRemove" (submittedBody ok fetched s)
        = (if s.tempImages = [] then [] else [.json s.tempImages]) ∧
    (∀ σ : Session, σ.state = s → Reachable σ →
      (∀ service, σ.lastEdited = some service → (service.images.getD []).Nodup) →
      (existingImageUrls s.formData.images).map Image.url = specExistingImages s) := by
  rw [submittedBody_eq]
  have hspec : (∀ u ∈ existingImageUrls s.formData.images, u ∉ s.tempImages) →
      (existingImageUrls s.formData.images).map Image.url = specExistingImages s := by
    intro h
    rw [existingImageUrls_spec] at *
    unfold specExistingImages
    rw [eq_comm, List.filter_eq_self]
    intro img himg
    cases img with
    | file f => rfl
    | url u =>
        have : u ∈ existingImageUrls s.formData.images := by
          have h2 : Image.url u ∈ (existingImageUrls s.formData.images).map Image.url := by
            rw [existingImageUrls_spec]; exact himg
          simpa using h2
        simpa using h u this
  refine ⟨?_, existingImageUrls_spec _, hspec, ?_, ?_⟩
  · simp only [formDataToSend, getAll_append,
      getAll_fileParts_of_ne "existingImages" (by decide)]
    by_cases h : s.tempImages = [] <;> simp [Payload.getAll, scalarParts, h]
  · simp only [formDataToSend, getAll_append,
      getAll_fileParts_of_ne "imagesToRemove" (by decide)]
    by_cases h : s.tempImages = []
    · simp [Payload.getAll, scalarParts, h]
    · have hpos : 0 < s.tempImages.length := List.length_pos.mpr h
      simp [Payload.getAll, scalarParts, h, hpos]
  · intro σ hσ hr hnd
    subst hσ
    exact hspec (remaining_not_removed σ hr hnd)

/-- Claim C1, witness: in the scenario of the specification the draft is
`[fileA]` with removal list `["http://a/1.png"]`; no URL is left in the draft, so
`existingImages` is the empty list, which is also the list worded by the
specification, and `imagesToRemove` is `["http://a/1.png"]`. -/
theorem existingImages_emitted_witness :
    scenarioSession.state.formData.images = [.file fileA] ∧
    scenarioSession.state.tempImages = ["http://a/1.png"] ∧
    Payload.getAll "existingImages" (submittedBody true none scenarioSession.state)
      = [.json []] ∧
    specExistingImages scenarioSession.state = [] ∧
    Payload.getAll "imagesToRemove" (submittedBody true none scenarioSession.state)
      = [.json ["http://a/1.png"]] := by
  have h := existingImages_emitted true none scenarioSession.state
  have himg : scenarioSession.state.formData.images = [.file fileA] := by decide
  have htmp : scenarioSession.state.tempImages = ["http://a/1.png"] := by decide
  obtain ⟨h1, _, h3, h4, _⟩ := h
  rw [himg] at h1 h3
  rw [htmp] at h4
  refine ⟨himg, htmp, h1, ?_, ?_⟩
  · exact (h3 (by simp [existingImageUrls])).symm
  · simpa using h4

/-- Claim C1, counterexample: editing a service whose image list names the URL
`http://a/1.png` twice and removing the first copy leaves that URL both in the
draft and in the removal list; `existingImages` then carries the URL, while the
draft filtered to URLs minus the removal list is empty. -/
theorem existingImages_not_minus_removal :
    Reachable duplicateSession ∧
    duplicateSession.state.formData.images = [.url "http://a/1.png"] ∧
    duplicateSession.state.tempImages = ["http://a/1.png"] ∧
    Payload.getAll "existingImages" (submittedBody true none duplicateSession.state)
      = [.json ["http://a/1.png"]] ∧
    specExistingImages duplicateSession.state = [] ∧
    ["http://a/1.png"].map Image.url ≠ specExistingImages duplicateSession.state := by
  refine ⟨?_, by decide, by decide, by decide, by decide, by decide⟩
  exact reachable_run _ _ Reachable.initial (by decide)

/-- Claim C3: the parts appended under `"images"` are exactly the non-string
entries of the draft image list, each once and in list order; they are the only
binary parts of the body, and no string entry is sent under `"images"`. -/
theorem fileParts_emitted (ok : Bool) (fetched : Option (List Service)) (s : State) :
    Payload.getAll "images" (submittedBody ok fetched s)
        = (s.formData.images.filter (fun img => !img.isString)).map Part.ofImage ∧
    (Payload.files (submittedBody ok fetched s)).map Image.file
        = s.formData.images.filter (fun img => !img.isString) ∧
    (∀ u : String, Part.text (.str u) ∉ Payload.getAll "images" (submittedBody ok fetched s)) := by
  rw [submittedBody_eq]
  have hall : Payload.getAll "images" (formDataToSend s)
      = (s.formData.images.filter (fun img => !img.isString)).map Part.ofImage := by
    simp only [formDataToSend, getAll_append, getAll_images_fileParts]
    by_cases h : 0 < s.tempImages.length <;> simp [Payload.getAll, scalarParts, h]
  refine ⟨hall, ?_, ?_⟩
  · have hfiles : Payload.files (formDataToSend s) = s.formData.images.filterMap Image.file? := by
      simp only [formDataToSend, files_append, files_fileParts]
      by_cases h : 0 < s.tempImages.length <;> simp [Payload.files, scalarParts, h]
    rw [hfiles]
    generalize s.formData.images = images
    induction images with
    | nil => rfl
    | cons img rest ih => cases img <;> simp [Image.file?, Image.isString, ih]
  · intro u hu
    rw [hall] at hu
    simp only [List.mem_map, List.mem_filter] at hu
    obtain ⟨img, ⟨_, hns⟩, himg⟩ := hu
    cases img <;> simp [Part.ofImage, Image.isString] at himg hns

/-- Claim C3, witness: in the scenario session the only part under `"images"` is
the local file `fileA`, and the removed URL is not sent under that key. -/
theorem fileParts_emitted_witness :
    Payload.getAll "images" (submittedBody true none scenarioSession.state) = [.file fileA] ∧
    Part.text (.str "http://a/1.png")
      ∉ Payload.getAll "images" (submittedBody true none scenarioSession.state) := by
  have h := fileParts_emitted true none scenarioSession.state
  have himg : scenarioSession.state.formData.images = [.file fileA] := by decide
  refine ⟨?_, h.2.2 "http://a/1.png"⟩
  rw [h.1, himg]
  rfl

/-! ## Form handlers -/

/-- Claim C2: at a valid position `index`, `handleRemoveImage` appends the URL found
there to the removal list when the component is in edit mode, leaves the
removal list alone when the entry is a local file, deletes the entry at
`index` from the image list in both cases (the entries before and after keep
their order), and changes nothing else. -/
theorem handleRemoveImage_spec (s : State) (index : Nat)
    (h : index < s.formData.images.length) :
    (∀ u, s.isEditing = true → s.formData.images[index]? = some (.url u) →
      (handleRemoveImage index s).tempImages = s.tempImages ++ [u]) ∧
    (∀ f, s.formData.images[index]? = some (.file f) →
      (handleRemoveImage index s).tempImages = s.tempImages) ∧
    (handleRemoveImage index s).formData.images
      = s.formData.images.take index ++ s.formData.images.drop (index + 1) ∧
    (handleRemoveImage index s).formData.images.length = s.formData.images.length - 1 ∧
    (handleRemoveImage index s).formData
      = { s.formData with images := (handleRemoveImage index s).formData.images } ∧
    (handleRemoveImage index s).services = s.services ∧
    (handleRemoveImage index s).loading = s.loading ∧
    (handleRemoveImage index s).error = s.error ∧
    (handleRemoveImage index s).viewingServices = s.viewingServices ∧
    (handleRemoveImage index s).isEditing = s.isEditing ∧
    (handleRemoveImage index s).currentServiceId = s.currentServiceId := by
  have himg : (handleRemoveImage index s).formData.images
      = s.formData.images.eraseIdx index := by
    unfold handleRemoveImage
    split <;> rfl
  refine ⟨?_, ?_, ?_, ?_, ?_, ?_, ?_, ?_, ?_, ?_, ?_⟩
  · intro u he hu
    simp [handleRemoveImage, he, hu]
  · intro f hf
    unfold handleRemoveImage
    rw [hf]
    cases s.isEditing <;> rfl
  · rw [himg, List.eraseIdx_eq_take_drop_succ]
  · rw [himg, List.length_eraseIdx, if_pos h]
  all_goals (unfold handleRemoveImage; split <;> rfl)

/-- Claim C2, witness: removing index 0 of `["http://a/1.png", fileA]` in edit mode. -/
theorem handleRemoveImage_spec_witness :
    (handleRemoveImage 0 (run [.mount (some [sampleService]), .edit sampleService,
        .imageChange [fileA]] Session.initial).state).tempImages = ["http://a/1.png"] ∧
    (handleRemoveImage 0 (run [.mount (some [sampleService]), .edit sampleService,
        .imageChange [fileA]] Session.initial).state).formData.images = [.file fileA] := by
  have h := handleRemoveImage_spec (run [.mount (some [sampleService]), .edit sampleService,
        .imageChange [fileA]] Session.initial).state 0 (by decide)
  exact ⟨h.1 "http://a/1.png" (by decide) (by decide), h.2.2.1⟩

/-- Claim C6: from any state, `handleCancel` and a `handleSubmit` whose request
succeeds (whatever the following refetch returns) end in the reset state: empty
draft, empty removal list, edit mode off, no identifier, list view shown. -/
theorem reset_after_cancel_and_submit (s : State) (fetched : Option (List Service)) :
    IsReset (handleCancel s) ∧ IsReset (handleSubmit true fetched s).1 := by
  constructor
  · simp [IsReset, handleCancel, resetForm, emptyForm]
  · cases fetched <;> simp [IsReset, handleSubmit, fetchServices, resetForm, emptyForm]

/-- Claim C7: when the awaited create or update request fails, the error message is
"Error updating service" in edit mode and "Error adding service" otherwise,
`loading` ends false, the draft, the removal list, the edit flag, the
identifier, the view flag and the service list are as before, and the failed
request is the only one issued. -/
theorem handleSubmit_failure (s : State) (fetched : Option (List Service)) :
    (handleSubmit false fetched s).1.error
      = some (if s.isEditing then "Error updating service" else "Error adding service") ∧
    (handleSubmit false fetched s).1.loading = false ∧
    (handleSubmit false fetched s).1.formData = s.formData ∧
    (handleSubmit false fetched s).1.tempImages = s.tempImages ∧
    (handleSubmit false fetched s).1.isEditing = s.isEditing ∧
    (handleSubmit false fetched s).1.currentServiceId = s.currentServiceId ∧
    (handleSubmit false fetched s).1.viewingServices = s.viewingServices ∧
    (handleSubmit false fetched s).1.services = s.services ∧
    (handleSubmit false fetched s).2 = [submitRequest s] ∧
    (handleSubmit false fetched s).2.length = 1 := by
  refine ⟨?_, rfl, rfl, rfl, rfl, rfl, rfl, rfl, rfl, rfl⟩
  cases h : s.isEditing <;> simp [handleSubmit, h]

/-- Claim C10: a declined confirmation leaves the whole state as it was and issues
no request; whatever the answers, every request `handleDelete` issues comes
after an accepted confirmation, and the DELETE it issues is for the given id. -/
theorem handleDelete_declined (s : State) (id : String) (ok : Bool)
    (fetched : Option (List Service)) :
    handleDelete id false ok fetched s = (s, []) ∧
    (∀ (confirmed : Bool) (r : Request),
      r ∈ (handleDelete id confirmed ok fetched s).2 → confirmed = true) ∧
    (handleDelete id true ok fetched s).2.head? = some (Request.delete id) ∧
    (∀ id2, Request.delete id2 ∈ (handleDelete id true ok fetched s).2 → id2 = id) := by
  refine ⟨rfl, ?_, ?_, ?_⟩
  · intro confirmed r hr
    cases confirmed
    · simp [handleDelete] at hr
    · rfl
  · cases ok <;> simp [handleDelete]
  · intro id2 h2
    cases ok <;> simp [handleDelete, fetchServices] at h2 <;> exact h2

/-- Claim C10, witness: declining the deletion of the sample service changes
nothing; accepting it issues `DELETE /services/s1`. -/
theorem handleDelete_declined_witness :
    handleDelete "s1" false true none initialState = (initialState, []) ∧
    Request.delete "s1" ∈ (handleDelete "s1" true true none initialState).2 ∧
    true = true :=
  ⟨(handleDelete_declined initialState "s1" true none).1, by decide,
   (handleDelete_declined initialState "s1" true none).2.1 true (Request.delete "s1")
     (by decide)⟩

/-! ## handleEdit -/

/-- Claim C8, as the code has it: for a service whose tags are a list, `handleEdit`
returns and the draft holds the service's name, category, price, duration and
description, its image list (empty when absent), its popular flag (false when
absent), its tags joined with ", ", and its discount when that is a non-zero
number; a discount that is absent or zero becomes the empty string. Edit mode
is on, the identifier is the service's, the form view is shown, and the other
state cells keep their values. -/
theorem handleEdit_snapshot (service : Service) (s : State) (l : List String)
    (h : service.tags = .list l) :
    handleEdit service s = .ok
      { services := s.services, loading := s.loading, error := s.error,
        tempImages := s.tempImages,
        formData :=
          { name := .str service.name, category := .str service.category,
            price := .num service.price, duration := .num service.duration,
            description := .str service.description,
            images := service.images.getD [],
            popular := .bool (service.popular.getD false),
            discount :=
              if service.discount = none ∨ service.discount = some 0 then .str ""
              else .num (service.discount.getD 0),
            tags := .str (", ".intercalate l) },
        isEditing := true, currentServiceId := some service._id,
        viewingServices := false } := by
  have hp : editPopular service.popular = .bool (service.popular.getD false) := by
    cases service.popular <;> rfl
  have hd : editDiscount service.discount
      = if service.discount = none ∨ service.discount = some 0 then .str ""
        else .num (service.discount.getD 0) := by
    cases hdisc : service.discount with
    | none => simp [editDiscount]
    | some d => by_cases hz : d = 0 <;> simp [editDiscount, hz]
  simp only [handleEdit, h, editTags, hp, hd]
  rfl

/-- Claim C8, witness: editing the sample service (tags `["quick", "premium"]`, discount 20). -/
theorem handleEdit_snapshot_witness :
    draftAfterEdit sampleService initialState = some
      { name := .str "Cut", category := .str "hair", price := .num 100, duration := .num 30,
        description := .str "A cut", images := [.url "http://a/1.png"],
        popular := .bool true, discount := .num 20, tags := .str "quick, premium" } := by
  have h := handleEdit_snapshot sampleService initialState ["quick", "premium"] rfl
  unfold draftAfterEdit
  rw [h]
  decide

/-- Claim C8, counterexample: a service with tags given as a list and a discount of
0 is snapshotted with the empty string as draft discount, not with 0. -/
theorem handleEdit_zero_discount :
    zeroDiscountService.tags = .list ["quick", "premium"] ∧
    zeroDiscountService.discount = some 0 ∧
    (draftAfterEdit zeroDiscountService initialState).map FormData.discount
      = some (.str "") ∧
    specDraftDiscount zeroDiscountService = .num 0 ∧
    Value.str "" ≠ specDraftDiscount zeroDiscountService := by
  refine ⟨rfl, rfl, ?_, rfl, ?_⟩
  · simp [draftAfterEdit, handleEdit, editTags, zeroDiscountService, sampleService, editDiscount]
  · simp [specDraftDiscount, zeroDiscountService]

/-! ## Price display -/

/-- Claim C4: in every reachable session `handleSubmit` issues a PATCH exactly when
`currentServiceId` is set and a POST exactly when it is not; the request comes
first and carries the body built from the draft, and the id of a PATCH is the
identifier of the service last passed to `handleEdit`. -/
theorem submit_dispatch (σ : Session) (h : Reachable σ) (ok : Bool)
    (fetched : Option (List Service)) :
    ((∃ id body, Request.patch id body ∈ (handleSubmit ok fetched σ.state).2)
      ↔ σ.state.currentServiceId ≠ none) ∧
    ((∃ body, Request.post body ∈ (handleSubmit ok fetched σ.state).2)
      ↔ σ.state.currentServiceId = none) ∧
    (∀ id body, Request.patch id body ∈ (handleSubmit ok fetched σ.state).2 →
      ∃ service, σ.lastEdited = some service ∧ id = some service._id) ∧
    (handleSubmit ok fetched σ.state).2.head?
      = some (if σ.state.currentServiceId ≠ none
          then Request.patch σ.state.currentServiceId (formDataToSend σ.state)
          else Request.post (formDataToSend σ.state)) := by
  obtain ⟨_, h2, h3, _⟩ := inv_of_reachable σ h
  have hreqs : (handleSubmit ok fetched σ.state).2
      = submitRequest σ.state :: (if ok = true then [Request.get] else []) := by
    cases ok <;> simp [handleSubmit, fetchServices]
  rw [hreqs]
  cases he : σ.state.isEditing with
  | false =>
      obtain ⟨_, hc⟩ := h2 he
      cases ok <;> simp [submitRequest, he, hc]
  | true =>
      obtain ⟨service, hl, hc, _⟩ := h3 he
      cases ok <;> simp [submitRequest, he, hc, hl]

/-- Claim C4, witness: in the scenario session, reached by editing the sample
service, submitting issues `PATCH /services/s1`. -/
theorem submit_dispatch_witness :
    Reachable scenarioSession ∧
    scenarioSession.state.currentServiceId = some "s1" ∧
    (handleSubmit true none scenarioSession.state).2.head?
      = some (Request.patch (some "s1") (formDataToSend scenarioSession.state)) := by
  have hr : Reachable scenarioSession := reachable_run _ _ Reachable.initial (by decide)
  have h := (submit_dispatch scenarioSession hr true none).2.2.2
  have hc : scenarioSession.state.currentServiceId = some "s1" := by decide
  refine ⟨hr, hc, ?_⟩
  rw [h, hc]
  rfl

/-- Claim C5: in every reachable session each URL of the removal list was in the
image list of the service passed to the most recent `handleEdit` and has been
deleted from the draft by `handleRemoveImage` since that call; the removal list
is empty outside edit mode, and it is empty right after any `handleEdit` the
list view offers. -/
theorem tempImages_invariant (σ : Session) (h : Reachable σ) :
    (∀ u ∈ σ.state.tempImages,
      ∃ service, σ.lastEdited = some service ∧
        Image.url u ∈ service.images.getD [] ∧ Image.url u ∈ σ.removed) ∧
    (σ.state.isEditing = false → σ.state.tempImages = []) ∧
    (∀ service, (Action.edit service).offered σ.state = true →
      (step (.edit service) σ).state.tempImages = [] ∧ (step (.edit service) σ).removed = []) := by
  obtain ⟨h1, h2, _, h4⟩ := inv_of_reachable σ h
  refine ⟨h4, fun he => (h2 he).1, ?_⟩
  intro service hoff
  simp only [Action.offered, Bool.and_eq_true] at hoff
  have htemp := (h2 (h1 hoff.1)).1
  refine ⟨?_, rfl⟩
  cases hres : handleEdit service σ.state with
  | error e => simp [step, hres, htemp]
  | ok s2 =>
      simp only [step, hres]
      unfold handleEdit at hres
      cases htags : editTags service.tags with
      | error e => simp [htags, bind, Except.bind] at hres
      | ok tags =>
          simp only [htags, bind, Except.bind, pure, Except.pure, Except.ok.injEq] at hres
          subst hres
          simp [htemp]

/-- Claim C5, witness: in the scenario session the removal list is `["http://a/1.png"]`,
a URL of the sample service that `handleRemoveImage` deleted from the draft. -/
theorem tempImages_invariant_witness :
    Reachable scenarioSession ∧
    scenarioSession.state.tempImages = ["http://a/1.png"] ∧
    (∃ service, scenarioSession.lastEdited = some service ∧
        Image.url "http://a/1.png" ∈ service.images.getD [] ∧
        Image.url "http://a/1.png" ∈ scenarioSession.removed) := by
  have hr : Reachable scenarioSession := reachable_run _ _ Reachable.initial (by decide)
  have ht : scenarioSession.state.tempImages = ["http://a/1.png"] := by decide
  exact ⟨hr, ht, (tempImages_invariant scenarioSession hr).1 "http://a/1.png" (by rw [ht]; simp)⟩

end ServicesManager
